import Mathlib

/-!
Shallow embedding of the cache-coherence core of `react-query-firestore`
(src/utils.ts, src/useHelpers.ts, src/useCollection.ts,
src/useInfiniteCollection.ts, the `useInfiniteCollection` variant appended in
src/Provider.tsx, and the `useDocument` module).

JavaScript objects are modelled with an explicit identity: every object or
array carries a `ref : Nat` tag, so "the exact same object reference" is
literal equality of the tagged value.  Functions that allocate new objects
thread a fresh-reference counter `fresh : Nat`; each allocation consumes a
counter value, so a newly allocated container is never confused with an
existing one.  Fallible code (the synchronous `throw new Error(...)` paths)
is modelled with `Except String`.
-/

set_option autoImplicit false

/-- Primitive JavaScript values as they occur in cached document fields:
`undefined`, `null`, booleans, numbers, strings, and references to heap
objects (identified by their `Nat` tag).  `===` on these values is plain
equality: value equality for primitives, reference equality for objects. -/
inductive CVal where
  | undefV
  | nullv
  | bool (b : Bool)
  | num (n : Int)
  | str (s : String)
  | oref (r : Nat)
deriving DecidableEq, Repr

/-- JavaScript truthiness of a `CVal` (`undefined`, `null`, `false`, `0` and
the empty string are falsy; object references are always truthy). -/
def jsTruthy : CVal → Bool
  | .undefV => false
  | .nullv => false
  | .bool b => b
  | .num n => n != 0
  | .str s => s != ""
  | .oref _ => true

/-- A JavaScript plain object: an identity tag plus its own enumerable
fields in insertion order (keys are unique in objects produced by JS). -/
structure DocObj where
  ref : Nat
  fields : List (String × CVal)
deriving DecidableEq, Repr

/-- First-match association-list lookup, the JS property read on a
string-keyed map. -/
def lookupA {α β : Type} [DecidableEq α] : List (α × β) → α → Option β
  | [], _ => none
  | (k, v) :: rest, k' => if k = k' then some v else lookupA rest k'

/-- Reading a possibly missing property: JS yields `undefined`. -/
def getF (fields : List (String × CVal)) (k : String) : CVal :=
  (lookupA fields k).getD .undefV

/-- Membership test for a key. -/
def hasK (fields : List (String × CVal)) (k : String) : Bool :=
  (lookupA fields k).isSome

/-- Shallow merge of two field maps, the JS object spread
`\x7b...a, ...b\x7d`: the keys of `a` in their order (with `b`'s value
winning where both define the key) followed by the keys only `b` defines,
in `b`'s order. -/
def spread2 (a b : List (String × CVal)) : List (String × CVal) :=
  a.map (fun kv => match lookupA b kv.1 with
    | some w => (kv.1, w)
    | none => kv)
  ++ b.filter (fun kv => !(hasK a kv.1))

/-- Update-or-append on an association list: the write part of
react-query's `setQueryData` (an absent query entry is created). -/
def setQD {α β : Type} [DecidableEq α] : List (α × β) → α → β → List (α × β)
  | [], k, v => [(k, v)]
  | (k', v') :: rest, k, v =>
    if k' = k then (k, v) :: rest else (k', v') :: setQD rest k v

/-- Remainder of a character list after removing `sep` from its front, or
`none` when `sep` is not there (the per-position test of JS
`String.prototype.split`). -/
def dropSub : List Char → List Char → Option (List Char)
  | [], s => some s
  | _ :: _, [] => none
  | c :: cs, d :: ds => if c = d then dropSub cs ds else none

/-- Fuel-indexed worker for JS `String.prototype.split(sep)` with a
nonempty separator: pieces between non-overlapping left-to-right
occurrences of `sep` (the fuel is the input length, enough for every
step). -/
def splitSubAux (sep : List Char) : Nat → List Char → List String
  | 0, s => [String.mk s]
  | fuel + 1, s =>
    match s with
    | [] => [""]
    | c :: rest =>
      match dropSub sep s with
      | some rem => "" :: splitSubAux sep fuel rem
      | none =>
        let r := splitSubAux sep fuel rest
        (String.mk [c] ++ r.headD "") :: r.tail

/-- JS `s.split(sep)` for a nonempty separator string. -/
def jsSplit (s : String) (sep : String) : List String :=
  splitSubAux sep.toList s.toList.length s.toList

/-- Whitespace test of JS `String.prototype.trim`. -/
def isWS (c : Char) : Bool :=
  c = ' ' || c = '\t' || c = '\n' || c = '\r'

/-- JS `s.trim()`: whitespace removed from both ends. -/
def jsTrim (s : String) : String :=
  String.mk (((s.toList.dropWhile isWS).reverse.dropWhile isWS).reverse)

/-- Nonempty path segments, the JS `path.split("/").filter(Boolean)`. -/
def pathSegments (p : String) : List String :=
  (jsSplit p "/").filter (fun s => s ≠ "")

/-- Validity test used by `setDocument` / `updateDocument` /
`deleteDocument`: a document path has an even number of nonempty segments
(`path.trim().split("/").filter(Boolean).length % 2 === 0`). -/
def isDocumentPath (p : String) : Bool :=
  (pathSegments (jsTrim p)).length % 2 == 0

/-- Last path segment, the `collection.pop()` of `updateCollectionCache` in
`useHelpers.ts` (applied to the raw, untrimmed path). -/
def docIdOf (p : String) : Option String :=
  (pathSegments p).getLast?

/-- The popped document id as the JS value compared by `===` (an empty
segment list pops `undefined`). -/
def docIdVOf (p : String) : CVal :=
  match docIdOf p with
  | some s => .str s
  | none => .undefV

/-- Parent collection path: the remaining segments rejoined with `/`. -/
def parentOf (p : String) : String :=
  String.intercalate "/" (pathSegments p).dropLast

/-- A collection cache key, the react-query key `[path, queryString]` from
`types.ts` (`key: [string, string | undefined]`). -/
abbrev CollKey := String × Option String

/-- Cached value of a collection query entry: the library stores arrays of
document objects; `null` and `undefined` cover entries cleared or not yet
populated (the `state?.some` optional chaining guards those).  The custom
`identityState` wrapping of cached shapes is not exercised by any claim and
is outside this embedding. -/
inductive CollVal where
  | arr (aref : Nat) (docs : List DocObj)
  | nullv
  | undefv
deriving DecidableEq, Repr

/-- Cached value of a single-document entry: a document object, or the
`null` tombstone written by `deleteDocument`. -/
inductive DocVal where
  | obj (ref : Nat) (fields : List (String × CVal))
  | nullv
deriving DecidableEq, Repr

/-- Fields of the previous single-document cache state as seen by a spread:
spreading `undefined` (absent entry) or `null` contributes no fields. -/
def prevFieldsOf : Option DocVal → List (String × CVal)
  | some (.obj _ f) => f
  | some .nullv => []
  | none => []

/-- Modelled from the spec: `Cache.ts` (the `collectionCache` Collection
Index) is not under `src/`; per spec section 4.3 it maps a collection path
to every cache key registered for it and returns the empty sequence for
unknown paths. -/
def getKeysFromCollectionPath (registry : List (String × List CollKey))
    (collection : String) : List CollKey :=
  (lookupA registry collection).getD []

/-- Modelled from the spec: idempotent registration of a query fingerprint
under its collection path (spec section 4.3, `addCollectionToCache`). -/
def addCollectionToCache (registry : List (String × List CollKey))
    (collection : String) (queryString : Option String) :
    List (String × List CollKey) :=
  let ks := (lookupA registry collection).getD []
  if (collection, queryString) ∈ ks then registry
  else setQD registry collection (ks ++ [(collection, queryString)])

/-- The whole client-side cache: single-document entries, collection query
entries, and the Collection Index registry. -/
structure Cache where
  docEntries : List (String × DocVal)
  collEntries : List (CollKey × CollVal)
  registry : List (String × List CollKey)
deriving DecidableEq, Repr

/-- Match test of `useHelpers.updateCollectionCache`:
`document[identityField] === docId`. -/
def matchDoc (identityField : String) (docIdV : CVal) (d : DocObj) : Bool :=
  getF d.fields identityField == docIdV

/-- The reference tag of the shared `empty.array` singleton from
`types.ts`, the default `currentState` of an absent collection entry. -/
def emptyArrRef : Nat := 0

/-- One collection entry rewritten by the `setQueryData` updater closure in
`useHelpers.updateCollectionCache`: when no cached document matches the
mutated id the current state is returned unchanged (same reference), else
the per-mutation callback `cb` produces the new document array, which is
wrapped in a freshly allocated array. -/
def entryUpdater (identityField : String) (docIdV : CVal)
    (cb : List DocObj → CVal → Nat → List DocObj × Nat)
    (old : Option CollVal) (fresh : Nat) : CollVal × Nat :=
  let currentState := old.getD (.arr emptyArrRef [])
  match currentState with
  | .arr r docs =>
    if docs.any (matchDoc identityField docIdV) then
      let res := cb docs docIdV fresh
      (.arr res.2 res.1, res.2 + 1)
    else
      (.arr r docs, fresh)
  | v => (v, fresh)

/-- Sequential rewrite of every fan-out key (the `forEach` over
`getKeysFromCollectionPath`, one `setQueryData` per registered key, in
order), threading the allocator. -/
def applyToKeys (entries : List (CollKey × CollVal)) (ks : List CollKey)
    (upd : Option CollVal → Nat → CollVal × Nat) (fresh : Nat) :
    List (CollKey × CollVal) × Nat :=
  match ks with
  | [] => (entries, fresh)
  | k :: rest =>
    let (v, f') := upd (lookupA entries k) fresh
    applyToKeys (setQD entries k v) rest upd f'

/-- The `updateCollectionCache` of `useHelpers.ts` (default
`identityState = undefined` branch): pops the doc id off the raw path,
asks the Collection Index for every key cached under the parent collection
path and rewrites each entry with the mutation callback. -/
def updateCollectionCacheH (c : Cache) (path : String)
    (identityField : String)
    (cb : List DocObj → CVal → Nat → List DocObj × Nat)
    (fresh : Nat) : Cache × Nat :=
  let ks := getKeysFromCollectionPath c.registry (parentOf path)
  let r := applyToKeys c.collEntries ks
    (entryUpdater identityField (docIdVOf path) cb) fresh
  ({ c with collEntries := r.1 }, r.2)

/-- Collection callback of `setDocument`: a matching document is
shallow-merged with the new data when `merge` is set and returned
unchanged otherwise (`if (!options?.merge) return document`); each merged
document is a fresh allocation and non-matching documents keep their
reference. -/
def setCb (identityField : String) (merge : Bool) (data : DocObj) :
    List DocObj → CVal → Nat → List DocObj × Nat
  | [], _, fresh => ([], fresh)
  | d :: rest, docIdV, fresh =>
    if matchDoc identityField docIdV d then
      if !merge then
        let (rest', f') := setCb identityField merge data rest docIdV fresh
        (d :: rest', f')
      else
        let (rest', f') :=
          setCb identityField merge data rest docIdV (fresh + 1)
        (⟨fresh, spread2 d.fields data.fields⟩ :: rest', f')
    else
      let (rest', f') := setCb identityField merge data rest docIdV fresh
      (d :: rest', f')

/-- Collection callback of `updateDocument`: a matching document becomes
the shallow merge of its old fields with the new data (a fresh object);
non-matching documents are passed through by reference. -/
def updateCb (identityField : String) (data : DocObj) :
    List DocObj → CVal → Nat → List DocObj × Nat
  | [], _, fresh => ([], fresh)
  | d :: rest, docIdV, fresh =>
    if matchDoc identityField docIdV d then
      let (rest', f') := updateCb identityField data rest docIdV (fresh + 1)
      (⟨fresh, spread2 d.fields data.fields⟩ :: rest', f')
    else
      let (rest', f') := updateCb identityField data rest docIdV fresh
      (d :: rest', f')

/-- Collection callback of `deleteDocument`: the matching document is
filtered out of the array (document objects are never falsy, so the
`if (!document) return false` guard never fires on them). -/
def deleteCb (identityField : String) :
    List DocObj → CVal → Nat → List DocObj × Nat
  | docs, docIdV, fresh =>
    (docs.filter (fun d => !(matchDoc identityField docIdV d)), fresh)

/-- Error text thrown by `setDocument` on a non-document path (the
serialized `data` suffix of the source message is elided). -/
def setErrMsg (p : String) : String :=
  "[react-query-firestore] error: called set() function with path: "
    ++ p ++ ". This is not a valid document path."

/-- Error text thrown by `updateDocument` on a non-document path. -/
def updateErrMsg (p : String) : String :=
  "[react-query-firestore] error: called update function with path: "
    ++ p ++ ". This is not a valid document path."

/-- Error text thrown by `deleteDocument` on a non-document path. -/
def deleteErrMsg (p : String) : String :=
  "[react-query-firestore] error: called delete() function with path: "
    ++ p ++ ". This is not a valid document path."

/-- The cache effect of `setDocument` from `useHelpers.ts`: an undefined or
empty path returns without touching anything; a non-document path throws
before any cache write; otherwise the single-document entry at `path` is
replaced by the `data` object itself (`merge` unset) or by a fresh shallow
merge of the previous state with `data`, and the mutation is propagated to
every registered collection entry.  The network `firestore.doc(path).set`
call is outside the cache model. -/
def setDocument (path : Option String) (data : DocObj) (merge : Bool)
    (ignoreLocalMutation : Bool) (identityField : String)
    (c : Cache) (fresh : Nat) : Except String (Cache × Nat) :=
  match path with
  | none => .ok (c, fresh)
  | some p =>
    if p = "" then .ok (c, fresh)
    else if !isDocumentPath p then .error (setErrMsg p)
    else
      let def1 :=
        if ignoreLocalMutation then (c.docEntries, fresh)
        else if !merge then
          (setQD c.docEntries p (.obj data.ref data.fields), fresh)
        else
          (setQD c.docEntries p
            (.obj fresh (spread2 (prevFieldsOf (lookupA c.docEntries p))
              data.fields)), fresh + 1)
      .ok (updateCollectionCacheH { c with docEntries := def1.1 } p
        identityField (setCb identityField merge data) def1.2)

/-- The cache effect of `updateDocument` from `useHelpers.ts`: undefined or
empty path is a no-op; a non-document path throws before any cache write;
otherwise the single-document entry becomes the shallow merge of the
previous state with `data` and the mutation is propagated to every
registered collection entry. -/
def updateDocument (path : Option String) (data : DocObj)
    (ignoreLocalMutation : Bool) (identityField : String)
    (c : Cache) (fresh : Nat) : Except String (Cache × Nat) :=
  match path with
  | none => .ok (c, fresh)
  | some p =>
    if p = "" then .ok (c, fresh)
    else if !isDocumentPath p then .error (updateErrMsg p)
    else
      let def1 :=
        if ignoreLocalMutation then (c.docEntries, fresh)
        else
          (setQD c.docEntries p
            (.obj fresh (spread2 (prevFieldsOf (lookupA c.docEntries p))
              data.fields)), fresh + 1)
      .ok (updateCollectionCacheH { c with docEntries := def1.1 } p
        identityField (updateCb identityField data) def1.2)

/-- The cache effect of `deleteDocument` from `useHelpers.ts`: undefined or
empty path is a no-op; a non-document path throws before any cache write;
otherwise the single-document entry is set to the `null` tombstone and the
matching document is removed from every registered collection entry that
contains it. -/
def deleteDocument (path : Option String)
    (ignoreLocalMutation : Bool) (identityField : String)
    (c : Cache) (fresh : Nat) : Except String (Cache × Nat) :=
  match path with
  | none => .ok (c, fresh)
  | some p =>
    if p = "" then .ok (c, fresh)
    else if !isDocumentPath p then .error (deleteErrMsg p)
    else
      let de := if ignoreLocalMutation then c.docEntries
        else setQD c.docEntries p .nullv
      .ok (updateCollectionCacheH { c with docEntries := de } p
        identityField (deleteCb identityField) fresh)

/-- Collection path computed by the `useDocument` variant of
`updateCollectionCache`: `path.split("/" + docId).filter(Boolean).join("/")`. -/
def parentOfSplit (path : String) (docId : String) : String :=
  String.intercalate "/"
    ((jsSplit path ("/" ++ docId)).filter (fun s => s ≠ ""))

/-- Match test of the `useDocument` variant of `updateCollectionCache`:
`currDoc.id && currDoc.id === data.id` (a falsy cached id never matches). -/
def matchDocD (dataId : CVal) (d : DocObj) : Bool :=
  jsTruthy (getF d.fields "id") && (getF d.fields "id" == dataId)

/-- One collection entry rewritten by the `useDocument` variant: when no
cached document matches, the current state keeps its reference; otherwise
every matching document is replaced by the pushed document object itself
(the same reference is placed in a freshly allocated array). -/
def entryUpdaterD (data : DocObj) (old : Option CollVal) (fresh : Nat) :
    CollVal × Nat :=
  let currentState := old.getD (.arr emptyArrRef [])
  match currentState with
  | .arr r docs =>
    if docs.any (matchDocD (getF data.fields "id")) then
      (.arr fresh
        (docs.map (fun d =>
          if getF d.fields "id" == getF data.fields "id" then data else d)),
        fresh + 1)
    else
      (.arr r docs, fresh)
  | v => (v, fresh)

/-- The `updateCollectionCache` of the `useDocument` module: derives the
collection path by splitting the document path on `"/" + docId`, and when
it is nonempty rewrites every registered entry with the pushed document. -/
def updateCollectionCacheD (c : Cache) (path : String) (docId : String)
    (data : DocObj) (fresh : Nat) : Cache × Nat :=
  let collection := parentOfSplit path docId
  if collection ≠ "" then
    let ks := getKeysFromCollectionPath c.registry collection
    let r := applyToKeys c.collEntries ks (entryUpdaterD data) fresh
    ({ c with collEntries := r.1 }, r.2)
  else
    (c, fresh)

/-- A pushed Firestore document snapshot as the `useDocument` listener sees
it: id and metadata from the snapshot, plus `doc.data()` (which is
`undefined` for a missing document). -/
structure DocSnap where
  id : String
  exist : Bool
  hasPendingWrites : Bool
  data : Option (List (String × CVal))
deriving DecidableEq, Repr

/-- Normalized record built inside `createListenerAsync` of `useDocument`:
`\x7b...docData, id, exists, hasPendingWrites\x7d` (metadata fields win
over raw fields of the same name; no date coercion happens here). -/
def normalizeSnap (snap : DocSnap) : List (String × CVal) :=
  spread2 (snap.data.getD [])
    [("id", .str snap.id), ("exists", .bool snap.exist),
     ("hasPendingWrites", .bool snap.hasPendingWrites)]

/-- The cache effect of one snapshot delivered to the `useDocument`
listener (`createListenerAsync` in the `useDocument` module): the
normalized record is allocated, and only when its `hasPendingWrites` flag
is falsy is it written to the single-document entry at `path` and
propagated to the registered collection entries; a pending snapshot leaves
the cache untouched. -/
def onDocSnapshot (path : String) (snap : DocSnap) (c : Cache)
    (fresh : Nat) : Cache × Nat :=
  let fields := normalizeSnap snap
  let dataObj : DocObj := ⟨fresh, fields⟩
  if !(jsTruthy (getF fields "hasPendingWrites")) then
    let c1 : Cache :=
      { c with docEntries := setQD c.docEntries path (.obj dataObj.ref fields) }
    updateCollectionCacheD c1 path snap.id dataObj (fresh + 1)
  else
    (c, fresh + 1)

/-- String coercion applied by JS `"/" + docId` when a non-string value
flows into the path concatenation. -/
def jsToString : CVal → String
  | .undefV => "undefined"
  | .nullv => "null"
  | .bool true => "true"
  | .bool false => "false"
  | .num n => toString n
  | .str s => s
  | .oref _ => "[object Object]"

/-- The JS `v || dflt` idiom for a string-typed slot: the coerced value
when truthy, the default otherwise. -/
def jsOr (v : CVal) (dflt : String) : String :=
  if jsTruthy v then jsToString v else dflt

/-- The cache effect of `setCache` from `useDocument`: the single-document
entry becomes the shallow merge of the previous state with the patch (a
fresh object), and that merged value is propagated through the
`useDocument` variant of `updateCollectionCache`, keyed by
`newData.id || ""`. -/
def setCacheDoc (path : String) (cachedData : List (String × CVal))
    (c : Cache) (fresh : Nat) : Cache × Nat :=
  if path = "" then (c, fresh)
  else
    let newFields := spread2 (prevFieldsOf (lookupA c.docEntries path))
      cachedData
    let newData : DocObj := ⟨fresh, newFields⟩
    let c1 : Cache :=
      { c with docEntries := setQD c.docEntries path (.obj fresh newFields) }
    updateCollectionCacheD c1 path (jsOr (getF newFields "id") "") newData
      (fresh + 1)

/-- One page of an infinite query: the page object's identity, its `data`
array of documents and the opaque `lastDoc` pagination cursor handle. -/
structure Page where
  pref : Nat
  data : List DocObj
  lastDoc : Option Nat
deriving DecidableEq, Repr

/-- Cached value of an infinite query entry, react-query's
`\x7bpages, pageParams\x7d` object, with its identity tag. -/
structure PagesVal where
  oref : Nat
  pages : List Page
  pageParams : List CVal
deriving DecidableEq, Repr

/-- A react-query cache fragment for one kind of query value: keyed entries
plus the set of keys marked stale by `invalidateQueries` (an invalidated
entry is refetched; its cached value is not rewritten by the
invalidation itself). -/
structure RQCache (α : Type) where
  entries : List (CollKey × α)
  invalidated : List CollKey
deriving DecidableEq, Repr

/-- Effect of `queryClient.invalidateQueries([path, memoQueryString])` on
the modelled fragment: the key is marked stale, entries are untouched. -/
def invalidateQueries {α : Type} (key : CollKey) (c : RQCache α) :
    RQCache α :=
  { c with invalidated :=
      if key ∈ c.invalidated then c.invalidated
      else c.invalidated ++ [key] }

/-- The `onSettled` handler of the `add` mutation in `useCollection.ts`
(`onSettled: () => queryClient.invalidateQueries([path, memoQueryString])`),
run by react-query after every mutation settle, success or failure.  The
mutation function itself only issues the network batch and performs no
cache write. -/
def useCollectionOnSettled (key : CollKey) (c : RQCache CollVal) :
    RQCache CollVal :=
  invalidateQueries key c

/-- The `onSettled` handler of the `add` mutation in
`useInfiniteCollection.ts` (same unconditional invalidation; the
optimistic-update and rollback handlers in that file are commented out). -/
def useInfiniteCollectionOnSettled (key : CollKey) (c : RQCache PagesVal) :
    RQCache PagesVal :=
  invalidateQueries key c

/-- Settle step of the `useInfiniteCollection` variant appended in
`Provider.tsx`: its `useMutation` options define `onMutate` and `onError`
but no `onSettled`, so settling runs no cache callback at all. -/
def providerInfiniteOnSettled (c : RQCache PagesVal) : RQCache PagesVal :=
  c

/-- Client-side id stamping in `onMutate` of the `Provider.tsx` variant:
`dataArray.map(doc => (\x7b...doc, id: ref.doc().id\x7d))`.  Each stamped
record is a fresh object whose fields are the caller's fields with the
generated id spread over them; `genIds i` is the id Firestore hands out
for the `i`-th `ref.doc()` call. -/
def stampIds (dataArr : List DocObj) (genIds : Nat → String) (i : Nat)
    (fresh : Nat) : List DocObj × Nat :=
  match dataArr with
  | [] => ([], fresh)
  | d :: rest =>
    let (rest', f') := stampIds rest genIds (i + 1) (fresh + 1)
    (⟨fresh, spread2 d.fields [("id", .str (genIds i))]⟩ :: rest', f')

/-- The `onMutate` handler of the `add` mutation in the `Provider.tsx`
variant of `useInfiniteCollection`: snapshots the previous pages value
(defaulting to an empty `\x7bpages: [], pageParams: []\x7d` object),
stamps client-side ids onto the new records, and optimistically replaces
the entry with a fresh pages object whose first page has the stamped
records prepended to its `data` array.  Reading `firstPage.data` of an
empty pages array throws, modelled as `Except.error`.  Returns the new
cache, the snapshotted context, the stamped records and the allocator. -/
def infiniteOnMutate (key : CollKey) (dataArr : List DocObj)
    (genIds : Nat → String) (c : RQCache PagesVal) (fresh : Nat) :
    Except String (RQCache PagesVal × PagesVal × List DocObj × Nat) :=
  let previousPages := (lookupA c.entries key).getD ⟨fresh, [], []⟩
  let f0 := match lookupA c.entries key with
    | some _ => fresh
    | none => fresh + 1
  let st := stampIds dataArr genIds 0 f0
  match previousPages.pages with
  | [] =>
    .error "TypeError: cannot read property data of undefined"
  | firstPage :: restPage =>
    let newFirst : Page := ⟨st.2, st.1 ++ firstPage.data, firstPage.lastDoc⟩
    let newVal : PagesVal := ⟨st.2 + 1, newFirst :: restPage,
      previousPages.pageParams⟩
    .ok ({ c with entries := setQD c.entries key newVal },
      previousPages, st.1, st.2 + 2)

/-- The `onError` handler of the same mutation: writes the snapshotted
`context.previousPages` back to the entry. -/
def infiniteOnError (key : CollKey) (previousPages : PagesVal)
    (c : RQCache PagesVal) : RQCache PagesVal :=
  { c with entries := setQD c.entries key previousPages }

/-- JS `Set`-based deduplication of an object list keeps the first
occurrence of each object reference (auxiliary accumulator form). -/
def dedupRefAux (seen : List Nat) : List DocObj → List DocObj
  | [] => []
  | d :: rest =>
    if d.ref ∈ seen then dedupRefAux seen rest
    else d :: dedupRefAux (d.ref :: seen) rest

/-- Iteration order of `new Set(list)` for object elements: insertion
order with later duplicate references dropped. -/
def dedupByRef (l : List DocObj) : List DocObj :=
  dedupRefAux [] l

/-- The `unionBy` of `utils.ts`: collects the iteratee values of `arr1`
into a set, appends the members of `arr2` whose iteratee value is not in
that set, and wraps the concatenation in `new Set` (reference-level
deduplication). -/
def unionBy (arr1 arr2 : List DocObj) (iteratee : DocObj → CVal) :
    List DocObj :=
  let s := arr1.map iteratee
  dedupByRef (arr1 ++ arr2.filter (fun itm => !(s.contains (iteratee itm))))

mutual
/-- Raw wire values walked by `parseDates` in `utils.ts`: primitives, the
native date produced by `Timestamp.toDate()`, plain objects and arrays.
Objects and arrays use dedicated list types so that all recursion below is
structural. -/
inductive TVal where
  | undefV
  | nullv
  | bool (b : Bool)
  | num (n : Int)
  | str (s : String)
  | date (seconds : Int) (nanoseconds : Int)
  | obj (fields : TFields)
  | arr (elems : TList)

/-- Field list of a raw object. -/
inductive TFields where
  | nil
  | cons (k : String) (v : TVal) (rest : TFields)

/-- Element list of a raw array. -/
inductive TList where
  | nil
  | cons (v : TVal) (rest : TList)
end

/-- Key membership in a raw object, the JS `"k" in value`. -/
def hasKeyT (fields : TFields) (k : String) : Bool :=
  match fields with
  | .nil => false
  | .cons k' _ rest => k' == k || hasKeyT rest k

/-- First-match lookup in a raw object. -/
def lookupT (fields : TFields) (k : String) : Option TVal :=
  match fields with
  | .nil => none
  | .cons k' v rest => if k' = k then some v else lookupT rest k

/-- Numeric component read by `Timestamp.toDate()` (non-numeric or missing
components read as 0 in the model). -/
def numOfT (fields : TFields) (k : String) : Int :=
  match lookupT fields k with
  | some (.num n) => n
  | _ => 0

/-- The `value.toDate()` call on a timestamp-shaped object: the native
date carrying the two duration components. -/
def toDateT (fields : TFields) : TVal :=
  .date (numOfT fields "seconds") (numOfT fields "nanoseconds")

mutual
/-- Per-value step of `parseDates`: falsy and primitive values are left as
they are (the `if (!value) return value` guard and the `typeof` test); an
object owning both a `seconds` and a `nanoseconds` key is replaced by its
native date; any other object or array is walked recursively. A native
date is an object without those keys and with no enumerable properties,
so recursing into it changes nothing and it is returned unchanged. -/
def fixVal : TVal → TVal
  | .obj fields =>
    if hasKeyT fields "seconds" && hasKeyT fields "nanoseconds" then
      toDateT fields
    else
      .obj (parseDates fields)
  | .arr elems => .arr (parseElems elems)
  | v => v

/-- The `parseDates` of `utils.ts` on an object's field map, written
functionally: the source mutates `obj[key]` in place for every key; the
model returns the rewritten map. -/
def parseDates : TFields → TFields
  | .nil => .nil
  | .cons k v rest => .cons k (fixVal v) (parseDates rest)

/-- The recursive walk over an array (`Object.keys` of an array are its
indices, and no array owns a `seconds` property). -/
def parseElems : TList → TList
  | .nil => .nil
  | .cons v rest => .cons (fixVal v) (parseElems rest)
end

/-- A raw two-component timestamp object,
`\x7bseconds: s, nanoseconds: n\x7d`. -/
def tsObj (s n : Int) : TVal :=
  .obj (.cons "seconds" (.num s) (.cons "nanoseconds" (.num n) .nil))

/-- Nesting a value under a key path: `nestT [k1, k2] v` is the object
`\x7bk1: \x7bk2: v\x7d\x7d`. -/
def nestT (path : List String) (v : TVal) : TVal :=
  path.foldr (fun k acc => .obj (.cons k acc .nil)) v


theorem lookupA_setQD_self {α β : Type} [DecidableEq α]
    (es : List (α × β)) (k : α) (v : β) :
    lookupA (setQD es k v) k = some v := by
  induction es with
  | nil => simp [setQD, lookupA]
  | cons hd tl ih =>
    obtain ⟨ka, va⟩ := hd
    by_cases h : ka = k
    · simp [setQD, h, lookupA]
    · simp [setQD, h, lookupA, ih]

theorem lookupA_setQD_ne {α β : Type} [DecidableEq α]
    (es : List (α × β)) (k k' : α) (v : β) (h : k' ≠ k) :
    lookupA (setQD es k v) k' = lookupA es k' := by
  have h2 : ¬ (k = k') := fun he => h he.symm
  induction es with
  | nil => simp [setQD, lookupA, h2]
  | cons hd tl ih =>
    obtain ⟨ka, va⟩ := hd
    by_cases hh : ka = k
    · subst hh
      simp [setQD, lookupA, h2]
    · simp [setQD, hh, lookupA, ih]

theorem setQD_self_of_lookupA {α β : Type} [DecidableEq α]
    (es : List (α × β)) (k : α) (v : β) (h : lookupA es k = some v) :
    setQD es k v = es := by
  induction es with
  | nil => simp [lookupA] at h
  | cons hd tl ih =>
    obtain ⟨ka, va⟩ := hd
    by_cases hh : ka = k
    · subst hh
      simp [lookupA] at h
      simp [setQD, h]
    · simp [lookupA, hh] at h
      simp [setQD, hh, ih h]

theorem applyToKeys_lookupA_notmem
    (ks : List CollKey) (es : List (CollKey × CollVal))
    (upd : Option CollVal → Nat → CollVal × Nat) (fresh : Nat)
    (k : CollKey) (hk : k ∉ ks) :
    lookupA (applyToKeys es ks upd fresh).1 k = lookupA es k := by
  induction ks generalizing es fresh with
  | nil => simp [applyToKeys]
  | cons k0 rest ih =>
    simp only [List.mem_cons, not_or] at hk
    simp only [applyToKeys]
    rw [ih _ _ hk.2, lookupA_setQD_ne _ _ _ _ hk.1]

theorem applyToKeys_lookupA_mem
    (ks : List CollKey) (es : List (CollKey × CollVal))
    (upd : Option CollVal → Nat → CollVal × Nat) (fresh : Nat)
    (k : CollKey) (hnd : ks.Nodup) (hk : k ∈ ks) :
    ∃ f0, lookupA (applyToKeys es ks upd fresh).1 k =
      some (upd (lookupA es k) f0).1 := by
  induction ks generalizing es fresh with
  | nil => simp at hk
  | cons k0 rest ih =>
    rcases List.nodup_cons.mp hnd with ⟨hk0, hndr⟩
    by_cases he : k = k0
    · subst he
      refine ⟨fresh, ?_⟩
      simp only [applyToKeys]
      rw [applyToKeys_lookupA_notmem _ _ _ _ _ hk0, lookupA_setQD_self]
    · rcases List.mem_cons.mp hk with he' | hmem
      · exact absurd he' he
      · simp only [applyToKeys]
        rcases ih (setQD es k0 (upd (lookupA es k0) fresh).1)
          (upd (lookupA es k0) fresh).2 hndr hmem with ⟨f0, hf⟩
        refine ⟨f0, ?_⟩
        rw [hf, lookupA_setQD_ne _ _ _ _ he]

theorem lookupA_append {α β : Type} [DecidableEq α]
    (l1 l2 : List (α × β)) (k : α) :
    lookupA (l1 ++ l2) k = (lookupA l1 k).orElse (fun _ => lookupA l2 k) := by
  induction l1 with
  | nil => simp [lookupA, Option.orElse]
  | cons hd tl ih =>
    obtain ⟨ka, va⟩ := hd
    by_cases h : ka = k
    · simp [lookupA, h, Option.orElse]
    · simp [lookupA, h, ih]

theorem lookupA_spread_map (a b : List (String × CVal)) (k : String) :
    lookupA (a.map (fun kv => match lookupA b kv.1 with
      | some w => (kv.1, w)
      | none => kv)) k =
      (lookupA a k).map (fun v => (lookupA b k).getD v) := by
  induction a with
  | nil => simp [lookupA]
  | cons hd tl ih =>
    obtain ⟨ka, va⟩ := hd
    by_cases h : ka = k
    · subst h
      cases hb : lookupA b ka <;> simp [lookupA, hb]
    · cases hb : lookupA b ka <;> simp [lookupA, hb, h, ih]

theorem lookupA_spread_filter (a b : List (String × CVal)) (k : String) :
    lookupA (b.filter (fun kv => !(hasK a kv.1))) k =
      if hasK a k then none else lookupA b k := by
  induction b with
  | nil => simp [lookupA]
  | cons hd tl ih =>
    obtain ⟨kb, vb⟩ := hd
    by_cases h : kb = k
    · subst h
      by_cases hp : hasK a kb
      · simp [List.filter, hp, lookupA, ih]
      · simp [List.filter, hp, lookupA]
    · by_cases hp : hasK a kb
      · simp [List.filter, hp, lookupA, h, ih]
      · simp [List.filter, hp, lookupA, h, ih]

theorem lookupA_spread2 (a b : List (String × CVal)) (k : String) :
    lookupA (spread2 a b) k =
      (lookupA b k).orElse (fun _ => lookupA a k) := by
  rw [spread2, lookupA_append, lookupA_spread_map, lookupA_spread_filter]
  cases ha : lookupA a k with
  | none =>
    have hk : hasK a k = false := by simp [hasK, ha]
    simp only [hk, Bool.false_eq_true, if_false, Option.map_none]
    cases lookupA b k <;> simp [Option.orElse]
  | some v =>
    have hk : hasK a k = true := by simp [hasK, ha]
    simp only [hk, if_true, Option.map_some]
    cases lookupA b k <;> simp [Option.orElse]

/-- Pointwise contract of the merge-style collection rewrites: a document
that does not match the mutated id is passed through as the very same
object, and a matching document is replaced by one whose fields read as
the shallow merge of the old fields with the mutation data (the new data
winning on shared keys). -/
def mergeRel (identityField : String) (docIdV : CVal) (data : DocObj)
    (d d' : DocObj) : Prop :=
  (matchDoc identityField docIdV d = false → d' = d) ∧
  (matchDoc identityField docIdV d = true →
    ∀ k, lookupA d'.fields k =
      (lookupA data.fields k).orElse (fun _ => lookupA d.fields k))

theorem updateCb_forall2 (identityField : String) (data : DocObj)
    (docs : List DocObj) (docIdV : CVal) (fresh : Nat) :
    List.Forall₂ (mergeRel identityField docIdV data) docs
      (updateCb identityField data docs docIdV fresh).1 := by
  induction docs generalizing fresh with
  | nil => simp [updateCb]
  | cons d rest ih =>
    by_cases hm : matchDoc identityField docIdV d
    · rcases heq : updateCb identityField data rest docIdV (fresh + 1)
        with ⟨rest', f'⟩
      simp only [updateCb, hm, if_true, heq]
      refine List.Forall₂.cons ⟨fun hc => ?_, fun _ k => ?_⟩ ?_
      · simp [hm] at hc
      · simp [lookupA_spread2]
      · have := ih (fresh + 1)
        rwa [heq] at this
    · rcases heq : updateCb identityField data rest docIdV fresh
        with ⟨rest', f'⟩
      simp only [updateCb, hm, if_false, heq]
      refine List.Forall₂.cons ⟨fun _ => rfl, fun hc _ => ?_⟩ ?_
      · rw [hc] at hm
        exact absurd rfl hm
      · have := ih fresh
        rwa [heq] at this

theorem setCb_nomerge_eq (identityField : String) (data : DocObj)
    (docs : List DocObj) (docIdV : CVal) (fresh : Nat) :
    setCb identityField false data docs docIdV fresh = (docs, fresh) := by
  induction docs generalizing fresh with
  | nil => simp [setCb]
  | cons d rest ih =>
    by_cases hm : matchDoc identityField docIdV d <;>
      simp [setCb, hm, ih]

theorem setCb_merge_forall2 (identityField : String) (data : DocObj)
    (docs : List DocObj) (docIdV : CVal) (fresh : Nat) :
    List.Forall₂ (mergeRel identityField docIdV data) docs
      (setCb identityField true data docs docIdV fresh).1 := by
  induction docs generalizing fresh with
  | nil => simp [setCb]
  | cons d rest ih =>
    by_cases hm : matchDoc identityField docIdV d
    · rcases heq : setCb identityField true data rest docIdV (fresh + 1)
        with ⟨rest', f'⟩
      simp only [setCb, hm, if_true, Bool.not_true, Bool.false_eq_true,
        if_false, heq]
      refine List.Forall₂.cons ⟨fun hc => ?_, fun _ k => ?_⟩ ?_
      · simp [hm] at hc
      · simp [lookupA_spread2]
      · have := ih (fresh + 1)
        rwa [heq] at this
    · rcases heq : setCb identityField true data rest docIdV fresh
        with ⟨rest', f'⟩
      simp only [setCb, hm, if_false, heq]
      refine List.Forall₂.cons ⟨fun _ => rfl, fun hc _ => ?_⟩ ?_
      · rw [hc] at hm
        exact absurd rfl hm
      · have := ih fresh
        rwa [heq] at this

/-- C1: for every cached collection entry registered under a document D's
parent collection path whose array contains a document whose identity
field equals D's id, `updateDocument(path, data)` rewrites D's cached copy
in that entry to the shallow merge of the old copy with `data`, while
every document other than D in that entry remains the identical object
reference it was before the mutation. -/
theorem updateDocument_collection_coherence
    (p : String) (data : DocObj) (c : Cache) (fresh : Nat)
    (key : CollKey) (aref : Nat) (docs : List DocObj)
    (hp : p ≠ "")
    (hdocp : isDocumentPath p = true)
    (hnd : (getKeysFromCollectionPath c.registry (parentOf p)).Nodup)
    (hk : key ∈ getKeysFromCollectionPath c.registry (parentOf p))
    (hold : lookupA c.collEntries key = some (.arr aref docs))
    (hmatch : docs.any (matchDoc "id" (docIdVOf p)) = true) :
    ∃ r r' docs',
      updateDocument (some p) data false "id" c fresh = .ok r ∧
      lookupA r.1.collEntries key = some (.arr r' docs') ∧
      List.Forall₂ (mergeRel "id" (docIdVOf p) data) docs docs' := by
  obtain ⟨f0, hf⟩ := applyToKeys_lookupA_mem
    (getKeysFromCollectionPath c.registry (parentOf p)) c.collEntries
    (entryUpdater "id" (docIdVOf p) (updateCb "id" data)) (fresh + 1)
    key hnd hk
  rw [hold] at hf
  refine ⟨updateCollectionCacheH
      (Cache.mk
        (setQD c.docEntries p
          (DocVal.obj fresh (spread2 (prevFieldsOf (lookupA c.docEntries p))
            data.fields)))
        c.collEntries c.registry) p "id" (updateCb "id" data) (fresh + 1),
    (updateCb "id" data docs (docIdVOf p) f0).2,
    (updateCb "id" data docs (docIdVOf p) f0).1,
    ?_, ?_, updateCb_forall2 _ _ _ _ _⟩
  · simp [updateDocument, hp, hdocp]
  · simp only [updateCollectionCacheH]
    rw [hf]
    simp [entryUpdater, hmatch]

theorem updateDocument_collection_coherence_witness :
    ∃ r r' docs',
      updateDocument (some "users/a") ⟨50, [("v", CVal.num 9)]⟩ false "id"
        ⟨[], [(("users", none), CollVal.arr 10
            [⟨11, [("id", CVal.str "a"), ("v", CVal.num 1)]⟩,
             ⟨12, [("id", CVal.str "b"), ("w", CVal.num 2)]⟩])],
          [("users", [("users", none)])]⟩ 100 = .ok r ∧
      lookupA r.1.collEntries ("users", none) = some (.arr r' docs') ∧
      List.Forall₂ (mergeRel "id" (docIdVOf "users/a")
          ⟨50, [("v", CVal.num 9)]⟩)
        [⟨11, [("id", CVal.str "a"), ("v", CVal.num 1)]⟩,
         ⟨12, [("id", CVal.str "b"), ("w", CVal.num 2)]⟩] docs' :=
  updateDocument_collection_coherence "users/a" ⟨50, [("v", CVal.num 9)]⟩
    ⟨[], [(("users", none), CollVal.arr 10
        [⟨11, [("id", CVal.str "a"), ("v", CVal.num 1)]⟩,
         ⟨12, [("id", CVal.str "b"), ("w", CVal.num 2)]⟩])],
      [("users", [("users", none)])]⟩ 100 ("users", none) 10
    [⟨11, [("id", CVal.str "a"), ("v", CVal.num 1)]⟩,
     ⟨12, [("id", CVal.str "b"), ("w", CVal.num 2)]⟩]
    (by decide) (by decide) (by decide) (by decide) (by decide) (by decide)

theorem applyToKeys_preserves
    (ks : List CollKey) (es : List (CollKey × CollVal))
    (upd : Option CollVal → Nat → CollVal × Nat) (fresh : Nat)
    (k : CollKey) (v : CollVal) (hnd : ks.Nodup)
    (hold : lookupA es k = some v)
    (hupd : ∀ f, (upd (some v) f).1 = v) :
    lookupA (applyToKeys es ks upd fresh).1 k = some v := by
  by_cases hk : k ∈ ks
  · obtain ⟨f0, hf⟩ := applyToKeys_lookupA_mem ks es upd fresh k hnd hk
    rw [hf, hold, hupd]
  · rw [applyToKeys_lookupA_notmem _ _ _ _ _ hk, hold]

/-- C2: for every cached collection entry whose array does not contain any
document whose identity field equals the mutated document's id,
propagating a `set`, `update`, `delete` or `setCache` mutation returns the
exact same object reference for that entry: the entry's value, including
the identity tag of its array container, is exactly what it was before the
mutation, so no new container is allocated and the entry is left
untouched. -/
theorem propagation_preserves_unmatched_entry
    (p : String) (data : DocObj) (merge : Bool)
    (cachedData : List (String × CVal)) (c : Cache) (fresh : Nat)
    (key : CollKey) (aref : Nat) (docs : List DocObj)
    (hp : p ≠ "")
    (hdocp : isDocumentPath p = true)
    (hnd : (getKeysFromCollectionPath c.registry (parentOf p)).Nodup)
    (hndD : (getKeysFromCollectionPath c.registry
      (parentOfSplit p (jsOr (getF (spread2 (prevFieldsOf
        (lookupA c.docEntries p)) cachedData) "id") ""))).Nodup)
    (hold : lookupA c.collEntries key = some (.arr aref docs))
    (hnm : docs.any (matchDoc "id" (docIdVOf p)) = false)
    (hnmD : docs.any (matchDocD (getF (spread2 (prevFieldsOf
      (lookupA c.docEntries p)) cachedData) "id")) = false) :
    (∃ r1, setDocument (some p) data merge false "id" c fresh = .ok r1 ∧
      lookupA r1.1.collEntries key = some (.arr aref docs)) ∧
    (∃ r2, updateDocument (some p) data false "id" c fresh = .ok r2 ∧
      lookupA r2.1.collEntries key = some (.arr aref docs)) ∧
    (∃ r3, deleteDocument (some p) false "id" c fresh = .ok r3 ∧
      lookupA r3.1.collEntries key = some (.arr aref docs)) ∧
    lookupA (setCacheDoc p cachedData c fresh).1.collEntries key =
      some (.arr aref docs) := by
  refine ⟨?_, ?_, ?_, ?_⟩
  · rcases hset : setDocument (some p) data merge false "id" c fresh
      with e | r
    · simp [setDocument, hp, hdocp] at hset
    · refine ⟨r, rfl, ?_⟩
      simp [setDocument, hp, hdocp] at hset
      rw [← hset]
      simp only [updateCollectionCacheH]
      exact applyToKeys_preserves _ _ _ _ _ _ hnd hold
        (fun f => by simp [entryUpdater, hnm])
  · rcases hupd : updateDocument (some p) data false "id" c fresh
      with e | r
    · simp [updateDocument, hp, hdocp] at hupd
    · refine ⟨r, rfl, ?_⟩
      simp [updateDocument, hp, hdocp] at hupd
      rw [← hupd]
      simp only [updateCollectionCacheH]
      exact applyToKeys_preserves _ _ _ _ _ _ hnd hold
        (fun f => by simp [entryUpdater, hnm])
  · rcases hdel : deleteDocument (some p) false "id" c fresh
      with e | r
    · simp [deleteDocument, hp, hdocp] at hdel
    · refine ⟨r, rfl, ?_⟩
      simp [deleteDocument, hp, hdocp] at hdel
      rw [← hdel]
      simp only [updateCollectionCacheH]
      exact applyToKeys_preserves _ _ _ _ _ _ hnd hold
        (fun f => by simp [entryUpdater, hnm])
  · simp only [setCacheDoc, if_neg hp, updateCollectionCacheD]
    by_cases hcol : parentOfSplit p (jsOr (getF (spread2 (prevFieldsOf
        (lookupA c.docEntries p)) cachedData) "id") "") = ""
    · simp [hcol, hold]
    · simp only [hcol, ne_eq, not_false_eq_true, if_true]
      exact applyToKeys_preserves _ _ _ _ _ _ hndD hold
        (fun f => by simp [entryUpdaterD, hnmD])

/-- Concrete cache for exercising the identity-preservation theorem: one
registered collection entry holding only the document with id `a`. -/
def c2cache : Cache :=
  ⟨[], [(("users", none), .arr 10 [⟨11, [("id", CVal.str "a")]⟩])],
    [("users", [("users", none)])]⟩

theorem propagation_preserves_unmatched_entry_witness :
    (∃ r1, setDocument (some "users/z") ⟨50, [("v", CVal.num 9)]⟩ false false
        "id" c2cache 100 = .ok r1 ∧
      lookupA r1.1.collEntries ("users", none) =
        some (.arr 10 [⟨11, [("id", CVal.str "a")]⟩])) ∧
    (∃ r2, updateDocument (some "users/z") ⟨50, [("v", CVal.num 9)]⟩ false
        "id" c2cache 100 = .ok r2 ∧
      lookupA r2.1.collEntries ("users", none) =
        some (.arr 10 [⟨11, [("id", CVal.str "a")]⟩])) ∧
    (∃ r3, deleteDocument (some "users/z") false "id" c2cache 100 = .ok r3 ∧
      lookupA r3.1.collEntries ("users", none) =
        some (.arr 10 [⟨11, [("id", CVal.str "a")]⟩])) ∧
    lookupA (setCacheDoc "users/z" [("x", CVal.num 1)] c2cache
        100).1.collEntries ("users", none) =
      some (.arr 10 [⟨11, [("id", CVal.str "a")]⟩]) :=
  propagation_preserves_unmatched_entry "users/z" ⟨50, [("v", CVal.num 9)]⟩
    false [("x", CVal.num 1)] c2cache 100 ("users", none) 10
    [⟨11, [("id", CVal.str "a")]⟩]
    (by decide) (by decide) (by decide) (by decide) (by decide) (by decide)
    (by decide)

/-- C3: on the single-document cache entry at `path`,
`setDocument(path, data, merge:false)` (or with options omitted, since the
merge flag defaults to unset) replaces the cached value entirely with
`data`, while `setDocument(path, data, merge:true)` and
`updateDocument(path, data)` both produce the shallow merge of the
previous cached value with `data` (every key reads the new value when
`data` defines it and the previous value otherwise). -/
theorem document_entry_merge_semantics
    (p : String) (data : DocObj) (c : Cache) (fresh : Nat)
    (pr : Nat) (pf : List (String × CVal))
    (hp : p ≠ "")
    (hdocp : isDocumentPath p = true)
    (hprev : lookupA c.docEntries p = some (.obj pr pf)) :
    (∃ r1, setDocument (some p) data false false "id" c fresh = .ok r1 ∧
      lookupA r1.1.docEntries p = some (.obj data.ref data.fields)) ∧
    (∃ r2, setDocument (some p) data true false "id" c fresh = .ok r2 ∧
      ∃ nr nf, lookupA r2.1.docEntries p = some (.obj nr nf) ∧
        ∀ k, lookupA nf k =
          (lookupA data.fields k).orElse (fun _ => lookupA pf k)) ∧
    (∃ r3, updateDocument (some p) data false "id" c fresh = .ok r3 ∧
      ∃ nr nf, lookupA r3.1.docEntries p = some (.obj nr nf) ∧
        ∀ k, lookupA nf k =
          (lookupA data.fields k).orElse (fun _ => lookupA pf k)) := by
  refine ⟨?_, ?_, ?_⟩
  · rcases hset : setDocument (some p) data false false "id" c fresh
      with e | r
    · simp [setDocument, hp, hdocp] at hset
    · refine ⟨r, rfl, ?_⟩
      simp [setDocument, hp, hdocp] at hset
      rw [← hset]
      simp only [updateCollectionCacheH]
      exact lookupA_setQD_self _ _ _
  · rcases hset : setDocument (some p) data true false "id" c fresh
      with e | r
    · simp [setDocument, hp, hdocp] at hset
    · refine ⟨r, rfl, fresh,
        spread2 (prevFieldsOf (lookupA c.docEntries p)) data.fields,
        ?_, ?_⟩
      · simp [setDocument, hp, hdocp] at hset
        rw [← hset]
        simp only [updateCollectionCacheH]
        exact lookupA_setQD_self _ _ _
      · intro k
        rw [hprev]
        simp only [prevFieldsOf]
        exact lookupA_spread2 pf data.fields k
  · rcases hupd : updateDocument (some p) data false "id" c fresh
      with e | r
    · simp [updateDocument, hp, hdocp] at hupd
    · refine ⟨r, rfl, fresh,
        spread2 (prevFieldsOf (lookupA c.docEntries p)) data.fields,
        ?_, ?_⟩
      · simp [updateDocument, hp, hdocp] at hupd
        rw [← hupd]
        simp only [updateCollectionCacheH]
        exact lookupA_setQD_self _ _ _
      · intro k
        rw [hprev]
        simp only [prevFieldsOf]
        exact lookupA_spread2 pf data.fields k

theorem document_entry_merge_semantics_witness :
    (∃ r1, setDocument (some "posts/a") ⟨50, [("v", CVal.num 2)]⟩ false false
        "id" ⟨[("posts/a", .obj 20 [("id", CVal.str "a"), ("v", CVal.num 1)])],
          [], []⟩ 100 = .ok r1 ∧
      lookupA r1.1.docEntries "posts/a" =
        some (.obj 50 [("v", CVal.num 2)])) ∧
    (∃ r2, setDocument (some "posts/a") ⟨50, [("v", CVal.num 2)]⟩ true false
        "id" ⟨[("posts/a", .obj 20 [("id", CVal.str "a"), ("v", CVal.num 1)])],
          [], []⟩ 100 = .ok r2 ∧
      ∃ nr nf, lookupA r2.1.docEntries "posts/a" = some (.obj nr nf) ∧
        ∀ k, lookupA nf k =
          (lookupA [("v", CVal.num 2)] k).orElse
            (fun _ => lookupA [("id", CVal.str "a"), ("v", CVal.num 1)] k)) ∧
    (∃ r3, updateDocument (some "posts/a") ⟨50, [("v", CVal.num 2)]⟩ false
        "id" ⟨[("posts/a", .obj 20 [("id", CVal.str "a"), ("v", CVal.num 1)])],
          [], []⟩ 100 = .ok r3 ∧
      ∃ nr nf, lookupA r3.1.docEntries "posts/a" = some (.obj nr nf) ∧
        ∀ k, lookupA nf k =
          (lookupA [("v", CVal.num 2)] k).orElse
            (fun _ => lookupA [("id", CVal.str "a"), ("v", CVal.num 1)] k)) :=
  document_entry_merge_semantics "posts/a" ⟨50, [("v", CVal.num 2)]⟩
    ⟨[("posts/a", .obj 20 [("id", CVal.str "a"), ("v", CVal.num 1)])], [], []⟩
    100 20 [("id", CVal.str "a"), ("v", CVal.num 1)]
    (by decide) (by decide) (by decide)

/-- Concrete cache refuting the replace-on-set claim: one registered
collection entry containing the document `a` with field `v = 1`. -/
def c4cache : Cache :=
  ⟨[], [(("posts", none), .arr 10
      [⟨11, [("id", CVal.str "a"), ("v", CVal.num 1)]⟩])],
    [("posts", [("posts", none)])]⟩

/-- C4 counterexample: propagating
`setDocument("posts/a", data, merge:false)` with `data = \x7bv: 2\x7d`
into a collection entry that does contain the matching document leaves
that document's fields exactly as they were (`v = 1`), which differ from
the new data — the `if (!options?.merge) return document` branch of the
source returns the old document instead of replacing its fields. -/
theorem setDocument_nomerge_propagation_counterexample :
    (setDocument (some "posts/a") ⟨50, [("v", CVal.num 2)]⟩ false false "id"
        c4cache 100).toOption.map
      (fun r => lookupA r.1.collEntries ("posts", none)) =
      some (some (.arr 100 [⟨11, [("id", CVal.str "a"), ("v", CVal.num 1)]⟩]))
    ∧ [("id", CVal.str "a"), ("v", CVal.num 1)] ≠ [("v", CVal.num 2)] := by
  decide

/-- C4 amended: when a cached collection entry does contain a document
matching the mutated id, propagating a set mutation shallow-merges the new
data over the old copy when the merge flag is true, and leaves the
matching document unchanged (no field is rewritten) when the merge flag is
false; non-matching documents keep their object reference either way. -/
theorem setDocument_collection_propagation_semantics
    (p : String) (data : DocObj) (merge : Bool) (c : Cache) (fresh : Nat)
    (key : CollKey) (aref : Nat) (docs : List DocObj)
    (hp : p ≠ "")
    (hdocp : isDocumentPath p = true)
    (hnd : (getKeysFromCollectionPath c.registry (parentOf p)).Nodup)
    (hk : key ∈ getKeysFromCollectionPath c.registry (parentOf p))
    (hold : lookupA c.collEntries key = some (.arr aref docs))
    (hmatch : docs.any (matchDoc "id" (docIdVOf p)) = true) :
    ∃ r r' docs',
      setDocument (some p) data merge false "id" c fresh = .ok r ∧
      lookupA r.1.collEntries key = some (.arr r' docs') ∧
      (merge = true →
        List.Forall₂ (mergeRel "id" (docIdVOf p) data) docs docs') ∧
      (merge = false → docs' = docs) := by
  rcases hset : setDocument (some p) data merge false "id" c fresh
    with e | r
  · simp [setDocument, hp, hdocp] at hset
  · obtain ⟨f0, hf⟩ := applyToKeys_lookupA_mem
      (getKeysFromCollectionPath c.registry (parentOf p)) c.collEntries
      (entryUpdater "id" (docIdVOf p) (setCb "id" merge data)) _ key hnd hk
    rw [hold] at hf
    simp [setDocument, hp, hdocp] at hset
    refine ⟨r, (setCb "id" merge data docs (docIdVOf p) f0).2,
      (setCb "id" merge data docs (docIdVOf p) f0).1, rfl, ?_, ?_, ?_⟩
    · rw [← hset]
      simp only [updateCollectionCacheH]
      rw [hf]
      simp [entryUpdater, hmatch]
    · intro hm
      subst hm
      exact setCb_merge_forall2 _ _ _ _ _
    · intro hm
      subst hm
      rw [setCb_nomerge_eq]

theorem setDocument_collection_propagation_semantics_witness :
    ∃ r r' docs',
      setDocument (some "posts/a") ⟨50, [("v", CVal.num 2)]⟩ true false "id"
        c4cache 100 = .ok r ∧
      lookupA r.1.collEntries ("posts", none) = some (.arr r' docs') ∧
      (true = true →
        List.Forall₂ (mergeRel "id" (docIdVOf "posts/a")
            ⟨50, [("v", CVal.num 2)]⟩)
          [⟨11, [("id", CVal.str "a"), ("v", CVal.num 1)]⟩] docs') ∧
      (true = false → docs' =
        [⟨11, [("id", CVal.str "a"), ("v", CVal.num 1)]⟩]) :=
  setDocument_collection_propagation_semantics "posts/a"
    ⟨50, [("v", CVal.num 2)]⟩ true c4cache 100 ("posts", none) 10
    [⟨11, [("id", CVal.str "a"), ("v", CVal.num 1)]⟩]
    (by decide) (by decide) (by decide) (by decide) (by decide) (by decide)

/-- C5: for every path that is a collection path rather than a valid
document path (an odd number of nonempty segments), each of `setDocument`,
`updateDocument` and `deleteDocument` throws a descriptive error
synchronously; the functions return only the error, carrying no cache, so
no single-document entry and no collection entry is mutated — the path
check precedes every cache write in the source. -/
theorem invalid_path_fails_fast
    (p : String) (data : DocObj) (merge ignoreLocal : Bool)
    (identityField : String) (c : Cache) (fresh : Nat)
    (hodd : (pathSegments (jsTrim p)).length % 2 = 1) :
    setDocument (some p) data merge ignoreLocal identityField c fresh =
      .error (setErrMsg p) ∧
    updateDocument (some p) data ignoreLocal identityField c fresh =
      .error (updateErrMsg p) ∧
    deleteDocument (some p) ignoreLocal identityField c fresh =
      .error (deleteErrMsg p) := by
  have hp : p ≠ "" := by
    intro h
    rw [h] at hodd
    exact absurd hodd (by decide)
  have hdoc : isDocumentPath p = false := by
    simp [isDocumentPath, hodd]
  refine ⟨?_, ?_, ?_⟩
  · simp [setDocument, hp, hdoc]
  · simp [updateDocument, hp, hdoc]
  · simp [deleteDocument, hp, hdoc]

theorem invalid_path_fails_fast_witness :
    setDocument (some "users") ⟨50, [("v", CVal.num 2)]⟩ false false "id"
      c2cache 100 = .error (setErrMsg "users") ∧
    updateDocument (some "users") ⟨50, [("v", CVal.num 2)]⟩ false "id"
      c2cache 100 = .error (updateErrMsg "users") ∧
    deleteDocument (some "users") false "id" c2cache 100 =
      .error (deleteErrMsg "users") :=
  invalid_path_fails_fast "users" ⟨50, [("v", CVal.num 2)]⟩ false false "id"
    c2cache 100 (by decide)

theorem setQD_setQD {α β : Type} [DecidableEq α]
    (es : List (α × β)) (k : α) (v w : β) :
    setQD (setQD es k v) k w = setQD es k w := by
  induction es with
  | nil => simp [setQD]
  | cons hd tl ih =>
    obtain ⟨ka, va⟩ := hd
    by_cases h : ka = k
    · simp [setQD, h]
    · simp [setQD, h, ih]

theorem stampIds_spec (dataArr : List DocObj) (genIds : Nat → String)
    (i0 fresh : Nat) :
    (stampIds dataArr genIds i0 fresh).1.length = dataArr.length ∧
    ∀ i (hi : i < dataArr.length)
      (hi' : i < (stampIds dataArr genIds i0 fresh).1.length),
      ((stampIds dataArr genIds i0 fresh).1.get ⟨i, hi'⟩).fields =
        spread2 ((dataArr.get ⟨i, hi⟩).fields)
          [("id", CVal.str (genIds (i0 + i)))] := by
  induction dataArr generalizing i0 fresh with
  | nil => simp [stampIds]
  | cons d restArr ih =>
    refine ⟨by simp [stampIds, (ih (i0 + 1) (fresh + 1)).1], ?_⟩
    intro i hi hi'
    match i with
    | 0 => simp [stampIds]
    | j + 1 =>
      have hj : j < restArr.length := by
        simpa using hi
      have hj' : j < (stampIds restArr genIds (i0 + 1) (fresh + 1)).1.length
        := by
        rw [(ih (i0 + 1) (fresh + 1)).1]
        exact hj
      have := (ih (i0 + 1) (fresh + 1)).2 j hj hj'
      simp only [stampIds, List.get_cons_succ]
      rw [this]
      have harith : i0 + 1 + j = i0 + (j + 1) := by omega
      rw [harith]

/-- C6: for the paginated collection session's `add` mutation (the
`Provider.tsx` variant), given any cached pages state with a first page,
`add(data)` first snapshots the previous pages value (returned as the
mutation context), optimistically prepends the newly id-stamped records to
the first page's cached array, and — should the batched write reject —
running the `onError` rollback with that context restores the whole cache
fragment to exactly its pre-mutation value. -/
theorem infinite_add_optimistic_rollback
    (key : CollKey) (dataArr : List DocObj) (genIds : Nat → String)
    (c : RQCache PagesVal) (fresh : Nat) (pv : PagesVal)
    (p0 : Page) (rest : List Page)
    (hold : lookupA c.entries key = some pv)
    (hpages : pv.pages = p0 :: rest) :
    ∃ r, infiniteOnMutate key dataArr genIds c fresh = .ok r ∧
      r.2.1 = pv ∧
      (∃ np, lookupA r.1.entries key = some np ∧
        ∃ nf, np.pages = Page.mk nf (r.2.2.1 ++ p0.data) p0.lastDoc :: rest ∧
          np.pageParams = pv.pageParams) ∧
      r.2.2.1.length = dataArr.length ∧
      (∀ i (hi : i < dataArr.length) (hi' : i < r.2.2.1.length),
        (r.2.2.1.get ⟨i, hi'⟩).fields =
          spread2 ((dataArr.get ⟨i, hi⟩).fields)
            [("id", CVal.str (genIds i))]) ∧
      infiniteOnError key r.2.1 r.1 = c := by
  have hmut : infiniteOnMutate key dataArr genIds c fresh = .ok
      (RQCache.mk
        (setQD c.entries key
          (PagesVal.mk ((stampIds dataArr genIds 0 fresh).2 + 1)
            (Page.mk (stampIds dataArr genIds 0 fresh).2
              ((stampIds dataArr genIds 0 fresh).1 ++ p0.data) p0.lastDoc
              :: rest)
            pv.pageParams))
        c.invalidated,
        pv, (stampIds dataArr genIds 0 fresh).1,
        (stampIds dataArr genIds 0 fresh).2 + 2) := by
    simp [infiniteOnMutate, hold, hpages]
  refine ⟨_, hmut, rfl, ⟨_, lookupA_setQD_self _ _ _,
    (stampIds dataArr genIds 0 fresh).2, rfl, rfl⟩, ?_, ?_, ?_⟩
  · exact (stampIds_spec dataArr genIds 0 fresh).1
  · intro i hi hi'
    have := (stampIds_spec dataArr genIds 0 fresh).2 i hi hi'
    rwa [Nat.zero_add] at this
  · simp only [infiniteOnError, setQD_setQD]
    rw [setQD_self_of_lookupA _ _ _ hold]

/-- Concrete pages value for the rollback example: one cached page whose
data array holds exactly the document with id "x". -/
def c6pages : PagesVal :=
  ⟨5, [⟨6, [⟨7, [("id", CVal.str "x")]⟩], none⟩], []⟩

/-- Concrete infinite-query cache fragment holding `c6pages`. -/
def c6cache : RQCache PagesVal :=
  ⟨[(("posts", some "q"), c6pages)], []⟩

theorem infinite_add_optimistic_rollback_witness :
    ∃ r, infiniteOnMutate ("posts", some "q") [⟨8, [("y", CVal.num 1)]⟩]
        (fun _ => "gen0") c6cache 100 = .ok r ∧
      r.2.1 = c6pages ∧
      (∃ np, lookupA r.1.entries ("posts", some "q") = some np ∧
        ∃ nf, np.pages =
            Page.mk nf (r.2.2.1 ++ [⟨7, [("id", CVal.str "x")]⟩]) none
              :: [] ∧
          np.pageParams = c6pages.pageParams) ∧
      r.2.2.1.length = [(⟨8, [("y", CVal.num 1)]⟩ : DocObj)].length ∧
      (∀ i (hi : i < [(⟨8, [("y", CVal.num 1)]⟩ : DocObj)].length)
        (hi' : i < r.2.2.1.length),
        (r.2.2.1.get ⟨i, hi'⟩).fields =
          spread2 (([(⟨8, [("y", CVal.num 1)]⟩ : DocObj)].get
            ⟨i, hi⟩).fields) [("id", CVal.str "gen0")]) ∧
      infiniteOnError ("posts", some "q") r.2.1 r.1 = c6cache :=
  infinite_add_optimistic_rollback ("posts", some "q")
    [⟨8, [("y", CVal.num 1)]⟩] (fun _ => "gen0") c6cache 100 c6pages
    ⟨6, [⟨7, [("id", CVal.str "x")]⟩], none⟩ []
    (by decide) (by decide)

/-- Full cache effect of one settled `add` mutation in `useCollection.ts`:
the mutation function performs only the network batch (no cache write),
and react-query then runs the `onSettled` handler after success and after
failure alike. -/
def useCollectionAddSettled (key : CollKey) (succeeded : Bool)
    (c : RQCache CollVal) : RQCache CollVal :=
  useCollectionOnSettled key c

/-- Full cache effect of one settled `add` mutation in
`useInfiniteCollection.ts`: the optimistic-update and rollback handlers
are commented out in the source, so the mutation function performs only
the network batch and `onSettled` runs after either outcome. -/
def useInfiniteCollectionAddSettled (key : CollKey) (succeeded : Bool)
    (c : RQCache PagesVal) : RQCache PagesVal :=
  useInfiniteCollectionOnSettled key c

/-- Concrete non-paginated collection cache fragment with one entry and
nothing invalidated. -/
def c7cache : RQCache CollVal :=
  ⟨[(("posts", some "q"), .arr 10 [⟨11, [("id", CVal.str "x")]⟩])], []⟩

/-- C7 counterexample: the non-paginated collection session does NOT leave
the query entry alone after its `add` mutation settles — starting from a
cache with nothing invalidated, settling the mutation (whether it
succeeded or failed) marks the query entry invalidated, so it is
re-fetched; the source of `useCollection.ts` installs the same
unconditional `onSettled: () => invalidateQueries(...)` as the paginated
session. -/
theorem useCollection_settle_invalidates_counterexample :
    ("posts", some "q") ∉ c7cache.invalidated ∧
    (useCollectionAddSettled ("posts", some "q") true c7cache).invalidated =
      [("posts", some "q")] ∧
    (useCollectionAddSettled ("posts", some "q") false c7cache).invalidated =
      [("posts", some "q")] := by
  decide

/-- C7 amended: after a collection `add` mutation settles, both the
non-paginated session (`useCollection.ts`) and the paginated session
(`useInfiniteCollection.ts`) unconditionally invalidate the query entry —
regardless of success or failure — while leaving the cached entry values
themselves untouched; the `Provider.tsx` paginated variant is the one
that runs no settle-time cache callback at all (it keeps the optimistic
value and rolls back only on error). -/
theorem add_settle_invalidation_semantics
    (key : CollKey) (succeeded : Bool)
    (cc : RQCache CollVal) (ci : RQCache PagesVal) :
    key ∈ (useCollectionAddSettled key succeeded cc).invalidated ∧
    (useCollectionAddSettled key succeeded cc).entries = cc.entries ∧
    key ∈ (useInfiniteCollectionAddSettled key succeeded ci).invalidated ∧
    (useInfiniteCollectionAddSettled key succeeded ci).entries = ci.entries ∧
    providerInfiniteOnSettled ci = ci := by
  refine ⟨?_, rfl, ?_, rfl, rfl⟩
  · by_cases h : key ∈ cc.invalidated <;>
      simp [useCollectionAddSettled, useCollectionOnSettled,
        invalidateQueries, h]
  · by_cases h : key ∈ ci.invalidated <;>
      simp [useInfiniteCollectionAddSettled, useInfiniteCollectionOnSettled,
        invalidateQueries, h]

/-- C8: for every snapshot delivered to a document subscription session,
the session writes the normalized document to the single-document cache
entry (and propagates it to collection entries) only when the snapshot's
`hasPendingWrites` flag is false; a snapshot with `hasPendingWrites` true
leaves every cache entry exactly as it was. -/
theorem doc_snapshot_pending_writes_gate
    (path : String) (snap : DocSnap) (c : Cache) (fresh : Nat) :
    (snap.hasPendingWrites = true → (onDocSnapshot path snap c fresh).1 = c) ∧
    (snap.hasPendingWrites = false →
      ∃ nr, lookupA (onDocSnapshot path snap c fresh).1.docEntries path =
        some (.obj nr (normalizeSnap snap))) := by
  have hflag : jsTruthy (getF (normalizeSnap snap) "hasPendingWrites") =
      snap.hasPendingWrites := by
    rw [getF, normalizeSnap, lookupA_spread2]
    simp [lookupA, jsTruthy]
  constructor
  · intro h
    simp [onDocSnapshot, hflag, h]
  · intro h
    refine ⟨fresh, ?_⟩
    simp only [onDocSnapshot, hflag, h, Bool.not_false, if_true]
    by_cases hcol : parentOfSplit path snap.id = ""
    · simp [updateCollectionCacheD, hcol, lookupA_setQD_self]
    · simp [updateCollectionCacheD, hcol, lookupA_setQD_self]

theorem doc_snapshot_pending_writes_gate_witness :
    (onDocSnapshot "posts/a"
        ⟨"a", true, true, some [("v", CVal.num 1)]⟩
        ⟨[], [], []⟩ 100).1 = ⟨[], [], []⟩ ∧
    (∃ nr, lookupA (onDocSnapshot "posts/a"
        ⟨"a", true, false, some [("v", CVal.num 1)]⟩
        ⟨[], [], []⟩ 100).1.docEntries "posts/a" =
      some (.obj nr (normalizeSnap
        ⟨"a", true, false, some [("v", CVal.num 1)]⟩))) :=
  ⟨(doc_snapshot_pending_writes_gate "posts/a"
      ⟨"a", true, true, some [("v", CVal.num 1)]⟩ ⟨[], [], []⟩ 100).1 rfl,
   (doc_snapshot_pending_writes_gate "posts/a"
      ⟨"a", true, false, some [("v", CVal.num 1)]⟩ ⟨[], [], []⟩ 100).2 rfl⟩

theorem dedupRefAux_eq_self (l : List DocObj) (seen : List Nat)
    (hdisj : ∀ d ∈ l, d.ref ∉ seen)
    (hnd : (l.map (fun d => d.ref)).Nodup) :
    dedupRefAux seen l = l := by
  induction l generalizing seen with
  | nil => simp [dedupRefAux]
  | cons d rest ih =>
    simp only [List.map_cons, List.nodup_cons, List.mem_map] at hnd
    have hd : d.ref ∉ seen := hdisj d (List.mem_cons_self d rest)
    rw [dedupRefAux, if_neg hd, ih]
    · intro e he
      simp only [List.mem_cons, not_or]
      refine ⟨fun hee => hnd.1 ⟨e, he, hee⟩, hdisj e (List.mem_cons_of_mem d he)⟩
    · exact hnd.2

/-- C9: merging newly pushed first-page documents into the existing first
page by document id — `unionBy` with the new documents as the first
argument — yields the new documents first in their original order, the
new copy winning for any id present in both (the superseded existing copy
is absent from the result), and the existing documents not superseded
keeping their relative order: the result is exactly the new array followed
by the old array filtered to ids not among the new ones. -/
theorem unionBy_merge_semantics
    (arr1 arr2 : List DocObj) (it : DocObj → CVal)
    (hnd : ((arr1 ++ arr2).map (fun d => d.ref)).Nodup) :
    unionBy arr1 arr2 it =
      arr1 ++ arr2.filter (fun itm => !((arr1.map it).contains (it itm))) ∧
    ∀ d ∈ arr2, it d ∈ arr1.map it → d ∉ unionBy arr1 arr2 it := by
  have hsub : (arr1 ++ arr2.filter
      (fun itm => !((arr1.map it).contains (it itm)))).Sublist (arr1 ++ arr2)
    := List.Sublist.append (List.Sublist.refl arr1) (List.filter_sublist _)
  have hnd2 : ((arr1 ++ arr2.filter
      (fun itm => !((arr1.map it).contains (it itm)))).map
        (fun d => d.ref)).Nodup :=
    List.Nodup.sublist (List.Sublist.map _ hsub) hnd
  have hmain : unionBy arr1 arr2 it =
      arr1 ++ arr2.filter (fun itm => !((arr1.map it).contains (it itm))) := by
    rw [unionBy, dedupByRef, dedupRefAux_eq_self _ _ (by simp) hnd2]
  refine ⟨hmain, ?_⟩
  intro d hd2 hid hmem
  rw [hmain] at hmem
  rcases List.mem_append.mp hmem with h1 | hf
  · rw [List.map_append, List.nodup_append] at hnd
    exact hnd.2.2 (List.mem_map.mpr ⟨d, h1, rfl⟩)
      (List.mem_map.mpr ⟨d, hd2, rfl⟩)
  · have hcontains := List.of_mem_filter hf
    simp only [Bool.not_eq_true'] at hcontains
    have hnmem : it d ∉ arr1.map it := by simpa using hcontains
    exact hnmem hid

theorem unionBy_merge_semantics_witness :
    (unionBy [⟨1, [("id", CVal.str "a"), ("v", CVal.num 2)]⟩]
        [⟨2, [("id", CVal.str "a"), ("v", CVal.num 1)]⟩,
         ⟨3, [("id", CVal.str "b"), ("v", CVal.num 1)]⟩]
        (fun d => getF d.fields "id") =
      [⟨1, [("id", CVal.str "a"), ("v", CVal.num 2)]⟩] ++
        List.filter (fun itm => !(([(⟨1, [("id", CVal.str "a"),
            ("v", CVal.num 2)]⟩ : DocObj)].map
              (fun d => getF d.fields "id")).contains
          (getF itm.fields "id")))
          [⟨2, [("id", CVal.str "a"), ("v", CVal.num 1)]⟩,
           ⟨3, [("id", CVal.str "b"), ("v", CVal.num 1)]⟩]) ∧
    (∀ d ∈ [(⟨2, [("id", CVal.str "a"), ("v", CVal.num 1)]⟩ : DocObj),
         ⟨3, [("id", CVal.str "b"), ("v", CVal.num 1)]⟩],
      getF d.fields "id" ∈
        [(⟨1, [("id", CVal.str "a"), ("v", CVal.num 2)]⟩ : DocObj)].map
          (fun d => getF d.fields "id") →
      d ∉ unionBy [⟨1, [("id", CVal.str "a"), ("v", CVal.num 2)]⟩]
        [⟨2, [("id", CVal.str "a"), ("v", CVal.num 1)]⟩,
         ⟨3, [("id", CVal.str "b"), ("v", CVal.num 1)]⟩]
        (fun d => getF d.fields "id")) ∧
    unionBy [⟨1, [("id", CVal.str "a"), ("v", CVal.num 2)]⟩]
        [⟨2, [("id", CVal.str "a"), ("v", CVal.num 1)]⟩,
         ⟨3, [("id", CVal.str "b"), ("v", CVal.num 1)]⟩]
        (fun d => getF d.fields "id") =
      [⟨1, [("id", CVal.str "a"), ("v", CVal.num 2)]⟩,
       ⟨3, [("id", CVal.str "b"), ("v", CVal.num 1)]⟩] :=
  ⟨(unionBy_merge_semantics _ _ _ (by decide)).1,
   (unionBy_merge_semantics _ _ _ (by decide)).2,
   by decide⟩

theorem lookupT_parseDates : ∀ (fields : TFields) (k : String),
    lookupT (parseDates fields) k = (lookupT fields k).map fixVal
  | .nil, k => by simp [parseDates, lookupT]
  | .cons k' v rest, k => by
    by_cases h : k' = k
    · simp [parseDates, lookupT, h]
    · simp [parseDates, lookupT, h, lookupT_parseDates rest k]

theorem fixVal_nest_ts (p : List String) (s n : Int) :
    fixVal (nestT p (tsObj s n)) = nestT p (.date s n) := by
  induction p with
  | nil => rfl
  | cons k p' ih =>
    have hcond : (hasKeyT (TFields.cons k (nestT p' (tsObj s n))
        TFields.nil) "seconds" &&
        hasKeyT (TFields.cons k (nestT p' (tsObj s n)) TFields.nil)
          "nanoseconds") = false := by
      by_cases hk : k = "seconds" <;> simp [hasKeyT, hk]
    rw [show nestT (k :: p') (tsObj s n) =
        TVal.obj (TFields.cons k (nestT p' (tsObj s n)) TFields.nil)
        from rfl,
      show nestT (k :: p') (TVal.date s n) =
        TVal.obj (TFields.cons k (nestT p' (TVal.date s n)) TFields.nil)
        from rfl,
      fixVal, hcond]
    simp only [Bool.false_eq_true, if_false]
    rw [show parseDates (TFields.cons k (nestT p' (tsObj s n))
        TFields.nil) =
      TFields.cons k (fixVal (nestT p' (tsObj s n))) TFields.nil from rfl,
      ih]

/-- C10: for every raw field map, normalization (`parseDates`) replaces
each field value that is an object containing both a `seconds` and a
`nanoseconds` component with its native date value, and the coercion
applies recursively at arbitrary nesting depth: a raw
`\x7bseconds, nanoseconds\x7d` pair nested under any key path normalizes
to the native date carrying those components. -/
theorem parseDates_timestamp_coercion
    (fields : TFields) (k : String) (f : TFields)
    (hlk : lookupT fields k = some (.obj f))
    (hs : hasKeyT f "seconds" = true)
    (hn : hasKeyT f "nanoseconds" = true) :
    lookupT (parseDates fields) k =
      some (.date (numOfT f "seconds") (numOfT f "nanoseconds")) ∧
    ∀ (p : List String) (k0 : String) (s n : Int),
      parseDates (TFields.cons k0 (nestT p (tsObj s n)) TFields.nil) =
        TFields.cons k0 (nestT p (.date s n)) TFields.nil := by
  constructor
  · rw [lookupT_parseDates, hlk]
    show some (fixVal (TVal.obj f)) = _
    rw [fixVal, hs, hn]
    simp [toDateT]
  · intro p k0 s n
    rw [show parseDates (TFields.cons k0 (nestT p (tsObj s n)) TFields.nil) =
      TFields.cons k0 (fixVal (nestT p (tsObj s n))) TFields.nil from rfl,
      fixVal_nest_ts]

theorem parseDates_timestamp_coercion_witness :
    lookupT (parseDates (TFields.cons "t" (tsObj 1 0) TFields.nil)) "t" =
      some (.date (numOfT (TFields.cons "seconds" (TVal.num 1)
          (TFields.cons "nanoseconds" (TVal.num 0) TFields.nil)) "seconds")
        (numOfT (TFields.cons "seconds" (TVal.num 1)
          (TFields.cons "nanoseconds" (TVal.num 0) TFields.nil))
          "nanoseconds")) ∧
    ∀ (p : List String) (k0 : String) (s n : Int),
      parseDates (TFields.cons k0 (nestT p (tsObj s n)) TFields.nil) =
        TFields.cons k0 (nestT p (.date s n)) TFields.nil :=
  parseDates_timestamp_coercion (TFields.cons "t" (tsObj 1 0) TFields.nil)
    "t" (TFields.cons "seconds" (TVal.num 1)
      (TFields.cons "nanoseconds" (TVal.num 0) TFields.nil))
    rfl rfl rfl
